import Mathlib

/-!
Verification development for the nupic.fluent multi-label classification
evaluation core (`fluent/models/classification_model.py`,
`fluent/experiments/baseline_experiment.py`,
`fluent/models/classify_endpoint.py`).

Python numerics are modelled over `ℚ`; Python exceptions are modelled with
an explicit error kind carried in `Except`.  `ValueError` is the error the
repository raises for caller contract violations ("InvalidArgument" in the
specification's terminology); `ZeroDivisionError` and `IndexError` are the
unclassified runtime errors Python raises on division by zero and
out-of-range indexing.
-/

deriving instance DecidableEq for Except

/-- Kinds of Python exceptions the embedded code can raise. -/
inductive PyErr where
  | valueError
  | zeroDivisionError
  | indexError
deriving DecidableEq, Repr

/-- The `classifications` argument: `classifications[0]` is the list of
per-sample predicted label lists (`none` models Python `None`, i.e. no
prediction); `classifications[1]` is the list of per-sample actual (gold)
label lists. -/
structure Classifications where
  predicted : List (Option (List ℕ))
  actual : List (List ℕ)
deriving DecidableEq

/-- A sample as carried through `evaluateResults`: tokenized text plus its
gold label list (only its presence matters to the scoring code). -/
abbrev Sample := List String × List ℕ

/-- The label list a `None` prediction contributes to `numpy.intersect1d`:
no common elements. -/
def predLabels (p : Option (List ℕ)) : List ℕ := p.getD []

/-- Length of `numpy.intersect1d a b`: the number of distinct elements of
`a` that also occur in `b`. -/
def intersect1dCount (a b : List ℕ) : ℕ :=
  (a.dedup.filter (fun x => decide (x ∈ b))).length

/-- The scoring loop of `ClassificationModel.calculateAccuracy`: for each
`(aLabel, pLabel)` pair add `len(intersect1d(aLabel, pLabel)) / len(aLabel)`
to the accumulator; Python raises `ZeroDivisionError` when `len(aLabel)`
is zero. -/
def accuracyLoop : List (List ℕ × Option (List ℕ)) → ℚ → Except PyErr ℚ
  | [], acc => .ok acc
  | (a, p) :: rest, acc =>
    if a.length = 0 then .error .zeroDivisionError
    else accuracyLoop rest (acc + (intersect1dCount a (predLabels p) : ℚ) / (a.length : ℚ))

/-- `ClassificationModel.calculateAccuracy(classifications, samples, references)`.
The length check raises `ValueError`; the loop runs over
`zip(actual, predicted, samples)`, so it is truncated to `len(samples)`
when `samples` is shorter; the final `accuracy/len(actual)` raises
`ZeroDivisionError` when `actual` is empty.  `references` is unused by the
function body. -/
def calculateAccuracy (c : Classifications) (samples : List Sample) : Except PyErr ℚ :=
  if c.predicted.length ≠ c.actual.length then .error .valueError
  else
    match accuracyLoop ((c.actual.zip c.predicted).take samples.length) 0 with
    | .error e => .error e
    | .ok total =>
      if c.actual.length = 0 then .error .zeroDivisionError
      else .ok (total / (c.actual.length : ℚ))

/-- Python indexing `l[i]` for a non-negative index: `IndexError` when out
of range. -/
def getE {α : Type} (l : List α) (i : ℕ) : Except PyErr α :=
  match l.get? i with
  | some x => .ok x
  | none => .error .indexError

/-- `cm[r][c] += 1` on a row-major table, with `IndexError` on an
out-of-range row or column. -/
def incr (m : List (List ℚ)) (r c : ℕ) : Except PyErr (List (List ℚ)) :=
  match m.get? r with
  | none => .error .indexError
  | some row =>
    match row.get? c with
    | none => .error .indexError
    | some v => .ok (m.set r (row.set c (v + 1)))

/-- One iteration of the population loop of
`ClassificationModel.calculateConfusionMatrix`: increment
`cm[aLabel[0]][pLabel[0]]` when a prediction exists, else
`cm[aLabel[0]][total]` (the "(none)" column). -/
def cmStep (total : ℕ) (m : List (List ℚ)) (ap : List ℕ × Option (List ℕ)) :
    Except PyErr (List (List ℚ)) :=
  match getE ap.1 0 with
  | .error e => .error e
  | .ok r =>
    match ap.2 with
    | some pl =>
      match getE pl 0 with
      | .error e => .error e
      | .ok pc => incr m r pc
    | none => incr m r total

/-- `numpy.zeros((total, total+1))`: the pre-totals confusion matrix. -/
def zerosCM (total : ℕ) : List (List ℚ) :=
  List.replicate total (List.replicate (total + 1) 0)

/-- The population loop of `calculateConfusionMatrix` over all
`(aLabel, pLabel)` pairs. -/
def cmLoop (total : ℕ) : List (List ℚ) → List (List ℕ × Option (List ℕ)) →
    Except PyErr (List (List ℚ))
  | m, [] => .ok m
  | m, ap :: rest =>
    match cmStep total m ap with
    | .error e => .error e
    | .ok m' => cmLoop total m' rest

/-- `numpy.sum(cm, axis=0)` for a table with `total+1` columns: the totals
row appended by `vstack`. -/
def colSums (total : ℕ) (m : List (List ℚ)) : List ℚ :=
  (List.range (total + 1)).map (fun j => (m.map (fun row => row.getD j 0)).sum)

/-- `ClassificationModel.calculateConfusionMatrix(classifications, references)`:
length check (`ValueError`), populate a `total × (total+1)` matrix one cell
per sample, `vstack` the column-sum totals row, then `hstack` the row-sum
totals column.  The pandas `DataFrame` wrapper only attaches row/column
names, so the result is modelled as the underlying table. -/
def calculateConfusionMatrix (c : Classifications) (references : List String) :
    Except PyErr (List (List ℚ)) :=
  if c.predicted.length ≠ c.actual.length then .error .valueError
  else
    match cmLoop references.length (zerosCM references.length) (c.actual.zip c.predicted) with
    | .error e => .error e
    | .ok m =>
      .ok ((m ++ [colSums references.length m]).map (fun row => row ++ [row.sum]))

/-- The cell of a row-major table at row `i`, column `j` (0 outside the
table). -/
def cell (m : List (List ℚ)) (i j : ℕ) : ℚ := (m.getD i []).getD j 0

/-- The matrix produced by incrementing cell `(r, c)` of `m` by one. -/
def cmBump (m : List (List ℚ)) (r c : ℕ) : List (List ℚ) :=
  m.set r ((m.getD r []).set c ((m.getD r []).getD c 0 + 1))

/-- The result record of `evaluateCumulativeResults` (the `results` dict). -/
structure CumulativeResult where
  max_accuracy : ℚ
  mean_accuracy : ℚ
  min_accuracy : ℚ
  total_cm : List (List ℚ)
deriving DecidableEq

/-- The shape of a row-major table: the list of its row lengths (rectangular
numpy arrays have constant row length). -/
def shapeOf (m : List (List ℚ)) : List ℕ := m.map List.length

/-- `numpy.add(a, b)` for same-shape tables; numpy raises `ValueError` when
the shapes cannot be combined. -/
def matAdd (a b : List (List ℚ)) : Except PyErr (List (List ℚ)) :=
  if shapeOf a = shapeOf b
  then .ok (List.zipWith (fun ra rb => List.zipWith (· + ·) ra rb) a b)
  else .error .valueError

/-- `numpy.zeros(m.shape)`. -/
def zerosLike (m : List (List ℚ)) : List (List ℚ) :=
  m.map (fun row => row.map (fun _ => (0 : ℚ)))

/-- The accumulation loop of `evaluateCumulativeResults`: element-wise sum
of the per-trial confusion matrices. -/
def cmSumLoop : List (List ℚ) → List (ℚ × List (List ℚ)) → Except PyErr (List (List ℚ))
  | acc, [] => .ok acc
  | acc, r :: rest =>
    match matAdd acc r.2 with
    | .error e => .error e
    | .ok acc' => cmSumLoop acc' rest

/-- Python `max` over the non-empty list `x :: xs`. -/
def pyMax (x : ℚ) (xs : List ℚ) : ℚ := xs.foldl max x

/-- Python `min` over the non-empty list `x :: xs`. -/
def pyMin (x : ℚ) (xs : List ℚ) : ℚ := xs.foldl min x

/-- `ClassificationModel.evaluateCumulativeResults(intermResults)`: indexing
`intermResults[0]` raises `IndexError` on an empty list; otherwise sum the
confusion matrices and take max, mean and min of the accuracy scalars. -/
def evaluateCumulativeResults (intermResults : List (ℚ × List (List ℚ))) :
    Except PyErr CumulativeResult :=
  match intermResults with
  | [] => .error .indexError
  | r0 :: rest =>
    match cmSumLoop (zerosLike r0.2) (r0 :: rest) with
    | .error e => .error e
    | .ok cm =>
      .ok { max_accuracy := pyMax r0.1 (rest.map Prod.fst)
            mean_accuracy := ((r0 :: rest).map Prod.fst).sum / (((r0 :: rest).length : ℚ))
            min_accuracy := pyMin r0.1 (rest.map Prod.fst)
            total_cm := cm }

example : calculateConfusionMatrix ⟨[some [0]], [[0]]⟩ ["a"] = .ok [[1, 0, 1], [1, 0, 1]] := by
  simp [calculateConfusionMatrix, cmLoop, cmStep, getE, incr, zerosCM, colSums, List.range_succ]

example : calculateConfusionMatrix ⟨[none], [[1]]⟩ ["a", "b"] =
    .ok [[0, 0, 0, 0], [0, 0, 1, 1], [0, 0, 1, 1]] := by
  simp [calculateConfusionMatrix, cmLoop, cmStep, getE, incr, zerosCM, colSums, List.range_succ]

example : evaluateCumulativeResults [(3/5, [[0]]), (4/5, [[0]]), (1, [[0]])] =
    .ok ⟨1, 4/5, 3/5, [[0]]⟩ := by
  simp [evaluateCumulativeResults, cmSumLoop, matAdd, zerosLike, shapeOf, pyMax, pyMin]
  norm_num

example : evaluateCumulativeResults [] = .error .indexError := rfl

/-- Stable insertion of one `(label, count)` item into a list already
sorted by descending count: walk past every item with a count `≥` the new
one, as CPython's stable `sorted(..., key=count, reverse=True)` does. -/
def insertDesc (x : ℕ × ℤ) : List (ℕ × ℤ) → List (ℕ × ℤ)
  | [] => [x]
  | y :: ys => if x.2 ≤ y.2 then y :: insertDesc x ys else x :: y :: ys

/-- `Counter(mapping).most_common()`: the `(label, count)` items sorted by
descending count, stably. -/
def sortDesc (l : List (ℕ × ℤ)) : List (ℕ × ℤ) :=
  l.foldl (fun acc x => insertDesc x acc) []

/-- `ClassificationModel.winningLabels(labels, n)` applied to a frequency
mapping (given to `Counter` as a dict of counts): take `most_common()`,
read the maximum count from its first item (0 for an empty input), keep
exactly the labels whose count equals that maximum, and truncate to `n`
entries. -/
def winningLabels (labels : List (ℕ × ℤ)) (n : ℕ) : List ℕ :=
  let labelCount := sortDesc labels
  let maxCount : ℤ := match labelCount with | [] => 0 | c :: _ => c.2
  let winners := (labelCount.filter (fun c => decide (c.2 = maxCount))).map Prod.fst
  if winners.length ≤ n then winners else winners.take n

/-- The head of the list (if any) carries a count at least as large as
every element's count: the invariant maintained by the descending sort
behind `most_common()`. -/
def headDominates : List (ℕ × ℤ) → Prop
  | [] => True
  | h :: t => ∀ z ∈ h :: t, z.2 ≤ h.2

example : winningLabels [(0, 0), (1, 4), (2, 0), (3, 1)] 3 = [1] := by decide
example : winningLabels [(0, 2), (1, 2), (2, 1)] 3 = [0, 1] := by decide
example : winningLabels [] 3 = [] := by decide

/-- A Python value passed as the second argument of `model.trainModel`:
either a single label (a numpy integer) or a list of labels. -/
inductive PyVal where
  | int (n : ℤ)
  | list (l : List ℤ)
deriving DecidableEq

/-- `baseline_experiment.training(model, trainSet)`: feed the samples to
`model.trainModel` one at a time, in input order, each call passing the
sample's pattern `x[0]` and its stored label value `x[1]`.  The model is
abstracted as a state `σ` with a `trainModel` transition. -/
def training {σ π : Type} (trainModelOp : σ → π × PyVal → σ) (model : σ)
    (trainSet : List (π × PyVal)) : σ :=
  trainSet.foldl trainModelOp model

/-- The trace of `trainModel` calls made by `training`, obtained by
instantiating the model state with a call log. -/
def trainingCalls {π : Type} (trainSet : List (π × PyVal)) : List (π × PyVal) :=
  training (fun log x => log ++ [x]) [] trainSet

/-- The train set `[(patterns[i][0], labels[i]) for i in idxSplits[0]]`
built by `baseline_experiment.runExperiment` from the fold's train
indices: each sample carries the single gold label `labels[i]` taken from
the flat per-row label array. -/
def runExperimentTrainSet {π : Type} (patterns : List (π × List ℤ)) (labels : List ℤ) :
    List ℕ → Except PyErr (List (π × PyVal))
  | [] => .ok []
  | i :: rest =>
    match getE patterns i with
    | .error e => .error e
    | .ok p =>
      match getE labels i with
      | .error e => .error e
      | .ok l =>
        match runExperimentTrainSet patterns labels rest with
        | .error e => .error e
        | .ok tl => .ok ((p.1, PyVal.int l) :: tl)

example : runExperimentTrainSet [((7 : ℕ), [0, 1])] [0] [0] = .ok [(7, PyVal.int 0)] := by decide

/-- `baseline_experiment.computeExpectedAccuracy(predictedLabels, dataPath)`
with the expected labels read by the external `readCSV` collaborator
supplied as a list: `ValueError` on a length mismatch, then the fraction
of positions where the two label strings agree (`ZeroDivisionError` on
zero-length input). -/
def computeExpectedAccuracy (predictedLabels expectedLabels : List String) :
    Except PyErr ℚ :=
  if expectedLabels.length ≠ predictedLabels.length then .error .valueError
  else if expectedLabels.length = 0 then .error .zeroDivisionError
  else .ok ((((List.range expectedLabels.length).filter
      (fun i => decide (expectedLabels.getD i "" = predictedLabels.getD i ""))).length : ℚ)
    / (expectedLabels.length : ℚ))

/-- The per-sample prediction string built in `baseline_experiment.run`:
`l if l else [None]` followed by
`labelReference[idx[0]] if idx[0] != None else '(none)'` — the top-1
predicted label mapped back to its string, or the sentinel `"(none)"` when
the prediction is `None` or empty. -/
def topPredictionString (labelReference : List String) (l : Option (List ℕ)) : String :=
  match l with
  | none => "(none)"
  | some [] => "(none)"
  | some (firstIdx :: _) => labelReference.getD firstIdx ""

/-- `itertools.chain.from_iterable(predictions)` over the per-fold
prediction-string lists kept by `baseline_experiment.run`. -/
def predictionsOfFolds (labelReference : List String)
    (folds : List (List (Option (List ℕ)))) : List String :=
  (folds.map (fun fold => fold.map (topPredictionString labelReference))).flatten

/-- The expected-label accuracy as `baseline_experiment.run` computes it:
`computeExpectedAccuracy` applied to the flat concatenation of all folds'
top-1 prediction strings. -/
def runExpectedAccuracy (labelReference : List String)
    (folds : List (List (Option (List ℕ)))) (expectedLabels : List String) :
    Except PyErr ℚ :=
  computeExpectedAccuracy (predictionsOfFolds labelReference folds) expectedLabels

/-- Per-fold equality-indicator means against fold-aligned slices of the
expected labels. -/
def foldAccuracies (expected : List String) : List (List String) → List ℚ
  | [] => []
  | f :: rest =>
    ((((expected.take f.length).zip f).filter (fun x => x.1 == x.2)).length : ℚ)
        / (f.length : ℚ) ::
      foldAccuracies (expected.drop f.length) rest

/-- Modelled from the spec: the expected-label accuracy described in §4.4
("average this equality indicator across all evaluated samples in the
fold, then again across folds") — the mean over folds of the per-fold
mean equality indicator.  Stated for comparison with
`runExpectedAccuracy`, which is what the code computes. -/
def specFoldwiseExpectedAccuracy (labelReference : List String)
    (folds : List (List (Option (List ℕ)))) (expectedLabels : List String) : ℚ :=
  let accs := foldAccuracies expectedLabels
    (folds.map (fun f => f.map (topPredictionString labelReference)))
  accs.sum / (accs.length : ℚ)

example : runExpectedAccuracy ["a", "b"] [[some [0]], [some [1], some [1]]] ["a", "x", "y"] =
    .ok (1/3) := by
  have h : ((List.range 3).filter
      (fun i => decide ((["a", "x", "y"] : List String)[i]?.getD "" =
        (["a", "b", "b"] : List String)[i]?.getD ""))) = [0] := by decide
  simp [runExpectedAccuracy, computeExpectedAccuracy, predictionsOfFolds, topPredictionString]
  rw [h]
  norm_num

example : specFoldwiseExpectedAccuracy ["a", "b"] [[some [0]], [some [1], some [1]]]
    ["a", "x", "y"] = 1/2 := by
  simp [specFoldwiseExpectedAccuracy, foldAccuracies, topPredictionString]

/-- The state of `ClassificationModelEndpoint`: the fields set in
`__init__` (those inherited from `ClassificationModel` plus the encoder
and client collaborators, abstracted as arbitrary values) and the two
learned-state dictionaries, modelled as association lists. -/
structure ClassificationModelEndpoint (E C : Type) where
  encoder : E
  client : C
  n : ℕ
  w : ℕ
  verbosity : ℕ
  plot : Bool
  multiclass : Bool
  positives : List (ℤ × List String)
  categoryBitmaps : List (ℤ × List ℕ)

/-- Python dict lookup on an association list with distinct keys. -/
def dictGet {α : Type} (d : List (ℤ × α)) (k : ℤ) : Option α :=
  (d.find? (fun kv => decide (kv.1 = k))).map Prod.snd

/-- Python dict assignment `d[k] = v`: replace the binding if the key is
present, else append it. -/
def dictSet {α : Type} (k : ℤ) (v : α) : List (ℤ × α) → List (ℤ × α)
  | [] => [(k, v)]
  | kv :: rest => if kv.1 = k then (k, v) :: rest else kv :: dictSet k v rest

/-- `ClassificationModelEndpoint.resetModel`: `positives.clear()` and
`categoryBitmaps.clear()`. -/
def resetModel {E C : Type} (m : ClassificationModelEndpoint E C) :
    ClassificationModelEndpoint E C :=
  { m with positives := [], categoryBitmaps := [] }

/-- `ClassificationModelEndpoint.trainModel(sample, label)`: append the
sample text to `positives[label]` and store the classification bitmap the
Cortical.io client returns for the updated positives (the client is
abstracted as a function). -/
def trainModel {E C : Type} (createClassification : ℤ → List String → List ℕ)
    (m : ClassificationModelEndpoint E C) (sampleText : String) (label : ℤ) :
    ClassificationModelEndpoint E C :=
  let newPos := ((dictGet m.positives label).getD []) ++ [sampleText]
  { m with positives := dictSet label newPos m.positives
           categoryBitmaps := dictSet label (createClassification label newPos) m.categoryBitmaps }

/-- `ClassificationModelEndpoint.testModel(sample)`: compare the sample
bitmap against every stored category bitmap via the Cortical.io client
(abstracted as `compare`), producing the distances dict in category order. -/
def testModel {E C D : Type} (compare : List ℕ → List ℕ → D)
    (m : ClassificationModelEndpoint E C) (sampleBitmap : List ℕ) : List (ℤ × D) :=
  m.categoryBitmaps.map (fun cb => (cb.1, compare sampleBitmap cb.2))

theorem intersect1dCount_eq_card (a b : List ℕ) :
    intersect1dCount a b = (a.toFinset ∩ b.toFinset).card := by
  have hnd : (a.dedup.filter (fun x => decide (x ∈ b))).Nodup :=
    (List.nodup_dedup a).filter _
  have hset : (a.dedup.filter (fun x => decide (x ∈ b))).toFinset =
      a.toFinset ∩ b.toFinset := by
    ext x
    simp [List.mem_filter, List.mem_dedup]
  calc intersect1dCount a b
      = (a.dedup.filter (fun x => decide (x ∈ b))).toFinset.card :=
        (List.toFinset_card_of_nodup hnd).symm
    _ = (a.toFinset ∩ b.toFinset).card := by rw [hset]

theorem accuracyLoop_ok (pairs : List (List ℕ × Option (List ℕ))) (acc : ℚ)
    (h : ∀ ap ∈ pairs, ap.1 ≠ []) :
    accuracyLoop pairs acc = .ok (acc + (pairs.map (fun ap =>
      (intersect1dCount ap.1 (predLabels ap.2) : ℚ) / (ap.1.length : ℚ))).sum) := by
  induction pairs generalizing acc with
  | nil => simp [accuracyLoop]
  | cons ap rest ih =>
    obtain ⟨a, p⟩ := ap
    have ha : a ≠ [] := h (a, p) (List.mem_cons_self _ _)
    have hlen : ¬ a.length = 0 := by simpa [List.length_eq_zero] using ha
    rw [accuracyLoop, if_neg hlen, ih _ (fun x hx => h x (List.mem_cons_of_mem _ hx))]
    simp [add_assoc]

theorem accuracyLoop_err (pairs : List (List ℕ × Option (List ℕ))) (acc : ℚ)
    (h : ∃ ap ∈ pairs, ap.1 = []) :
    accuracyLoop pairs acc = .error .zeroDivisionError := by
  induction pairs generalizing acc with
  | nil => simp at h
  | cons ap rest ih =>
    obtain ⟨a, p⟩ := ap
    obtain ⟨x, hx, hxe⟩ := h
    rcases List.mem_cons.mp hx with rfl | hmem
    · have ha : a = [] := hxe
      rw [accuracyLoop, if_pos (by simp [ha])]
    · by_cases hz : a.length = 0
      · rw [accuracyLoop, if_pos hz]
      · rw [accuracyLoop, if_neg hz]
        exact ih _ ⟨x, hmem, hxe⟩

theorem exists_pair_of_mem_left {α β : Type} (P : α → Prop) :
    ∀ (xs : List α) (ys : List β), xs.length = ys.length →
      (∃ x ∈ xs, P x) → ∃ ap ∈ xs.zip ys, P ap.1 := by
  intro xs
  induction xs with
  | nil => simp
  | cons x xs ih =>
    intro ys hlen hex
    cases ys with
    | nil => simp at hlen
    | cons y ys =>
      obtain ⟨x', hx', hP⟩ := hex
      rcases List.mem_cons.mp hx' with rfl | hmem
      · exact ⟨(x', y), List.mem_cons_self _ _, hP⟩
      · obtain ⟨ap, hap, hPap⟩ := ih ys (by simpa using hlen) ⟨x', hmem, hP⟩
        exact ⟨ap, List.mem_cons_of_mem _ hap, hPap⟩

/-- C1: for every classifications input of equal predicted/actual length
(with the samples list covering every scored pair), where every per-sample
actual label set is non-empty (and duplicate-free, so that it is a set),
`calculateAccuracy` returns the arithmetic mean over all samples of the
per-sample score `|A ∩ P| / |A|`; an absent prediction contributes the
empty `P`, scoring 0 but still counted in the denominator of the mean. -/
theorem calculateAccuracy_mean_of_overlap_scores (c : Classifications)
    (samples : List Sample)
    (hlen : c.predicted.length = c.actual.length)
    (hsamp : c.actual.length ≤ samples.length)
    (hne : c.actual ≠ [])
    (hgood : ∀ a ∈ c.actual, a ≠ [] ∧ a.Nodup) :
    calculateAccuracy c samples =
      .ok ((((c.actual.zip c.predicted).map (fun ap =>
          ((ap.1.toFinset ∩ (predLabels ap.2).toFinset).card : ℚ)
            / (ap.1.toFinset.card : ℚ))).sum)
        / (c.actual.length : ℚ)) := by
  have hziplen : (c.actual.zip c.predicted).length = c.actual.length := by
    simp [List.length_zip, hlen]
  have htake : (c.actual.zip c.predicted).take samples.length = c.actual.zip c.predicted :=
    List.take_of_length_le (by rw [hziplen]; exact hsamp)
  have hmemleft : ∀ ap ∈ c.actual.zip c.predicted, ap.1 ∈ c.actual := by
    intro ap hap
    exact (List.of_mem_zip hap).1
  have hloop := accuracyLoop_ok (c.actual.zip c.predicted) 0
    (fun ap hap => (hgood ap.1 (hmemleft ap hap)).1)
  have hmaps : (c.actual.zip c.predicted).map (fun ap =>
        (intersect1dCount ap.1 (predLabels ap.2) : ℚ) / (ap.1.length : ℚ)) =
      (c.actual.zip c.predicted).map (fun ap =>
        ((ap.1.toFinset ∩ (predLabels ap.2).toFinset).card : ℚ)
          / (ap.1.toFinset.card : ℚ)) := by
    apply List.map_congr_left
    intro ap hap
    have hnd : ap.1.Nodup := (hgood ap.1 (hmemleft ap hap)).2
    rw [intersect1dCount_eq_card, List.toFinset_card_of_nodup hnd]
  have hA0 : ¬ c.actual.length = 0 := by simpa [List.length_eq_zero] using hne
  rw [calculateAccuracy, if_neg (by rw [hlen]; exact fun h => h rfl), htake, hloop]
  dsimp only
  rw [if_neg hA0, hmaps]
  simp

/-- C1 witness: a concrete two-sample run; `A₀ = {0,1}, P₀ = {0}` scores
`1/2`, `A₁ = {1}, P₁ = {2}` scores `0`, so the mean is `1/4`. -/
theorem calculateAccuracy_mean_witness :
    (([some [0], some [2]] : List (Option (List ℕ))).length = ([[0, 1], [1]] : List (List ℕ)).length) ∧
    (([[0, 1], [1]] : List (List ℕ)).length ≤ ([([], [0, 1]), ([], [1])] : List Sample).length) ∧
    (([[0, 1], [1]] : List (List ℕ)) ≠ []) ∧
    (∀ a ∈ ([[0, 1], [1]] : List (List ℕ)), a ≠ [] ∧ a.Nodup) ∧
    calculateAccuracy ⟨[some [0], some [2]], [[0, 1], [1]]⟩ [([], [0, 1]), ([], [1])] =
      .ok (((([[0, 1], [1]] : List (List ℕ)).zip ([some [0], some [2]] : List (Option (List ℕ)))).map
          (fun ap => ((ap.1.toFinset ∩ (predLabels ap.2).toFinset).card : ℚ)
            / (ap.1.toFinset.card : ℚ))).sum / (([[0, 1], [1]] : List (List ℕ)).length : ℚ)) :=
  ⟨by decide, by decide, by decide, by decide,
    calculateAccuracy_mean_of_overlap_scores ⟨[some [0], some [2]], [[0, 1], [1]]⟩
      [([], [0, 1]), ([], [1])] (by decide) (by decide) (by decide) (by decide)⟩

/-- C7 counterexample: on a sample whose actual label set is empty, the
code divides by `len(aLabel) = 0` and fails with `ZeroDivisionError`, not
with the `ValueError` the repository uses for invalid arguments. -/
theorem calculateAccuracy_emptyActual_counterexample :
    calculateAccuracy ⟨[some [0]], [[]]⟩ [([], [])] = .error .zeroDivisionError ∧
    (Except.error PyErr.zeroDivisionError : Except PyErr ℚ) ≠ .error .valueError := by
  constructor
  · rw [calculateAccuracy]
    simp [accuracyLoop]
  · intro h
    exact absurd (Except.error.inj h) (by decide)

/-- C7 amended: for every classifications input of equal lengths (with the
samples list covering every scored pair) containing at least one empty
actual label set, `calculateAccuracy` fails — but with `ZeroDivisionError`
(an unclassified runtime error), not with the `ValueError` used for
invalid arguments. -/
theorem calculateAccuracy_emptyActual_zeroDivision (c : Classifications)
    (samples : List Sample)
    (hlen : c.predicted.length = c.actual.length)
    (hsamp : c.actual.length ≤ samples.length)
    (hempty : ∃ a ∈ c.actual, a = []) :
    calculateAccuracy c samples = .error .zeroDivisionError := by
  have hziplen : (c.actual.zip c.predicted).length = c.actual.length := by
    simp [List.length_zip, hlen]
  have htake : (c.actual.zip c.predicted).take samples.length = c.actual.zip c.predicted :=
    List.take_of_length_le (by rw [hziplen]; exact hsamp)
  have hpair : ∃ ap ∈ c.actual.zip c.predicted, ap.1 = [] :=
    exists_pair_of_mem_left (fun a => a = []) c.actual c.predicted hlen.symm hempty
  rw [calculateAccuracy, if_neg (by rw [hlen]; exact fun h => h rfl), htake,
    accuracyLoop_err _ _ hpair]

theorem getD_set {α : Type} (l : List α) (i j : ℕ) (v d : α) (h : i < l.length) :
    (l.set i v).getD j d = if j = i then v else l.getD j d := by
  induction l generalizing i j with
  | nil => simp at h
  | cons x xs ih =>
    cases i with
    | zero =>
      cases j with
      | zero => simp
      | succ j => simp [List.getD]
    | succ i =>
      cases j with
      | zero => simp [List.getD]
      | succ j =>
        have := ih i j (Nat.lt_of_succ_lt_succ h)
        simpa [List.getD] using this

theorem cell_cmBump_same (m : List (List ℚ)) (r c : ℕ)
    (hr : r < m.length) (hc : c < (m.getD r []).length) :
    cell (cmBump m r c) r c = cell m r c + 1 := by
  unfold cell cmBump
  rw [getD_set m r r _ _ hr, if_pos rfl, getD_set _ c c _ _ hc, if_pos rfl]

theorem cell_cmBump_other (m : List (List ℚ)) (r c i j : ℕ)
    (hr : r < m.length) (hc : c < (m.getD r []).length)
    (hne : ¬(i = r ∧ j = c)) :
    cell (cmBump m r c) i j = cell m i j := by
  unfold cell cmBump
  rw [getD_set m r i _ _ hr]
  by_cases hir : i = r
  · rw [if_pos hir, getD_set _ c j _ _ hc]
    have hjc : ¬ j = c := fun hj => hne ⟨hir, hj⟩
    rw [if_neg hjc, hir]
  · rw [if_neg hir]

theorem get?_eq_some_getD {α : Type} (l : List α) (i : ℕ) (d : α) (h : i < l.length) :
    l.get? i = some (l.getD i d) := by
  induction l generalizing i with
  | nil => simp at h
  | cons x xs ih =>
    cases i with
    | zero => simp [List.getD]
    | succ i => simpa [List.getD] using ih i (Nat.lt_of_succ_lt_succ h)

theorem incr_eq_cmBump (m : List (List ℚ)) (r c : ℕ)
    (hr : r < m.length) (hc : c < (m.getD r []).length) :
    incr m r c = .ok (cmBump m r c) := by
  unfold incr
  rw [get?_eq_some_getD m r [] hr]
  dsimp only
  rw [get?_eq_some_getD (m.getD r []) c 0 hc]
  rfl

/-- C2: one iteration of the confusion-matrix population loop (before the
totals row/column are appended) increments exactly one cell of the table:
`[aLabel[0]][pLabel[0]]` when a prediction exists, and `[aLabel[0]][total]`
— the "(none)" column — when the predicted label is absent; every other
cell is unchanged. -/
theorem calculateConfusionMatrix_step_increments_one_cell (total : ℕ)
    (m : List (List ℚ)) (a : List ℕ) (p : Option (List ℕ)) (r c : ℕ)
    (ha : a.head? = some r)
    (hc : (match p with | none => some total | some pl => pl.head?) = some c)
    (hr : r < m.length) (hcol : c < (m.getD r []).length) :
    cmStep total m (a, p) = .ok (cmBump m r c) ∧
    cell (cmBump m r c) r c = cell m r c + 1 ∧
    ∀ i j, ¬(i = r ∧ j = c) → cell (cmBump m r c) i j = cell m i j := by
  refine ⟨?_, cell_cmBump_same m r c hr hcol,
    fun i j hne => cell_cmBump_other m r c i j hr hcol hne⟩
  have hget : getE a 0 = .ok r := by
    unfold getE
    rw [show a.get? 0 = a.head? from (List.get?_zero a), ha]
  cases p with
  | none =>
    have hcc : total = c := by
      simpa using hc
    unfold cmStep
    rw [hget]
    dsimp only
    rw [hcc]
    exact incr_eq_cmBump m r c hr hcol
  | some pl =>
    have hgetp : getE pl 0 = .ok c := by
      unfold getE
      rw [show pl.get? 0 = pl.head? from (List.get?_zero pl), show pl.head? = some c by simpa using hc]
    unfold cmStep
    rw [hget]
    dsimp only
    rw [hgetp]
    exact incr_eq_cmBump m r c hr hcol

/-- C2 witness: a one-label table; the sample with actual first label 0 and
predicted first label 0 bumps exactly cell (0,0). -/
theorem confusionMatrix_step_witness :
    (([0] : List ℕ).head? = some 0) ∧
    ((match (some [0] : Option (List ℕ)) with
      | none => some 1 | some pl => pl.head?) = some 0) ∧
    (0 < ([[0, 0]] : List (List ℚ)).length) ∧
    (0 < (([[0, 0]] : List (List ℚ)).getD 0 []).length) ∧
    (cmStep 1 [[0, 0]] ([0], some [0]) = .ok (cmBump [[0, 0]] 0 0) ∧
      cell (cmBump [[0, 0]] 0 0) 0 0 = cell [[0, 0]] 0 0 + 1 ∧
      ∀ i j, ¬(i = 0 ∧ j = 0) → cell (cmBump [[0, 0]] 0 0) i j = cell [[0, 0]] i j) :=
  ⟨rfl, rfl, by decide, by decide,
    calculateConfusionMatrix_step_increments_one_cell 1 [[0, 0]] [0] (some [0]) 0 0
      rfl rfl (by decide) (by decide)⟩

theorem mem_set {α : Type} (l : List α) (i : ℕ) (v x : α) (h : x ∈ l.set i v) :
    x = v ∨ x ∈ l := by
  induction l generalizing i with
  | nil => simp at h
  | cons y ys ih =>
    cases i with
    | zero =>
      rcases List.mem_cons.mp h with rfl | hm
      · exact Or.inl rfl
      · exact Or.inr (List.mem_cons_of_mem _ hm)
    | succ i =>
      rcases List.mem_cons.mp h with rfl | hm
      · exact Or.inr (List.mem_cons_self _ _)
      · rcases ih i hm with h1 | h2
        · exact Or.inl h1
        · exact Or.inr (List.mem_cons_of_mem _ h2)

theorem incr_shape (m m' : List (List ℚ)) (r c : ℕ) (L : ℕ)
    (hL : ∀ row ∈ m, row.length = L) (h : incr m r c = .ok m') :
    m'.length = m.length ∧ ∀ row ∈ m', row.length = L := by
  unfold incr at h
  split at h
  · exact absurd h (by simp)
  · rename_i row hrow
    split at h
    · exact absurd h (by simp)
    · rename_i v hv
      have hm' : m' = m.set r (row.set c (v + 1)) := (Except.ok.inj h).symm
      subst hm'
      refine ⟨List.length_set _ _ _, fun x hx => ?_⟩
      rcases mem_set _ _ _ _ hx with rfl | hxm
      · rw [List.length_set]
        exact hL row (List.get?_mem hrow)
      · exact hL x hxm

theorem cmStep_shape (total : ℕ) (m m' : List (List ℚ))
    (ap : List ℕ × Option (List ℕ)) (L : ℕ)
    (hL : ∀ row ∈ m, row.length = L) (h : cmStep total m ap = .ok m') :
    m'.length = m.length ∧ ∀ row ∈ m', row.length = L := by
  unfold cmStep at h
  split at h
  · exact absurd h (by simp)
  · split at h
    · split at h
      · exact absurd h (by simp)
      · exact incr_shape m m' _ _ L hL h
    · exact incr_shape m m' _ _ L hL h

theorem cmLoop_shape (total : ℕ) (pairs : List (List ℕ × Option (List ℕ))) :
    ∀ (m m' : List (List ℚ)) (L : ℕ), (∀ row ∈ m, row.length = L) →
      cmLoop total m pairs = .ok m' →
      m'.length = m.length ∧ ∀ row ∈ m', row.length = L := by
  induction pairs with
  | nil =>
    intro m m' L hL h
    have hmm : m = m' := by simpa [cmLoop] using h
    subst hmm
    exact ⟨rfl, hL⟩
  | cons ap rest ih =>
    intro m m' L hL h
    rw [cmLoop] at h
    split at h
    · exact absurd h (by simp)
    · rename_i m1 hm1
      obtain ⟨hlen1, hL1⟩ := cmStep_shape total m m1 ap L hL hm1
      obtain ⟨hlen2, hL2⟩ := ih m1 m' L hL1 h
      exact ⟨hlen2.trans hlen1, hL2⟩

/-- C6 amended: the populated pre-totals matrix is `numLabels × (numLabels+1)`
(one extra column — only — for "no prediction"), so after the totals row
and totals column are appended the returned table has `numLabels + 1` rows
of `numLabels + 2` entries each; it is not square. -/
theorem calculateConfusionMatrix_shape (c : Classifications) (references : List String)
    (m' : List (List ℚ)) (h : calculateConfusionMatrix c references = .ok m') :
    m'.length = references.length + 1 ∧
    ∀ row ∈ m', row.length = references.length + 2 := by
  unfold calculateConfusionMatrix at h
  split at h
  · exact absurd h (by simp)
  · split at h
    · exact absurd h (by simp)
    · rename_i m hcm
      have hzL : ∀ row ∈ zerosCM references.length, row.length = references.length + 1 := by
        intro row hrow
        rw [List.eq_of_mem_replicate hrow]
        exact List.length_replicate _ _
      obtain ⟨hlen, hL⟩ :=
        cmLoop_shape references.length (c.actual.zip c.predicted)
          (zerosCM references.length) m (references.length + 1) hzL hcm
      have hmlen : m.length = references.length := by
        rw [hlen]
        exact List.length_replicate _ _
      have hm' : m' = (m ++ [colSums references.length m]).map (fun row => row ++ [row.sum]) :=
        (Except.ok.inj h).symm
      subst hm'
      constructor
      · simp [hmlen]
      · intro row hrow
        obtain ⟨orig, horig, rfl⟩ := List.mem_map.mp hrow
        rcases List.mem_append.mp horig with hm | hc
        · simp [hL orig hm]
        · have : orig = colSums references.length m := by simpa using hc
          subst this
          simp [colSums]

/-- C6 witness: two reference labels; the returned table has 3 rows of 4
entries each. -/
theorem calculateConfusionMatrix_shape_witness :
    calculateConfusionMatrix ⟨[none], [[1]]⟩ ["a", "b"] =
      .ok [[0, 0, 0, 0], [0, 0, 1, 1], [0, 0, 1, 1]] ∧
    (([[0, 0, 0, 0], [0, 0, 1, 1], [0, 0, 1, 1]] : List (List ℚ)).length =
      (["a", "b"] : List String).length + 1 ∧
    ∀ row ∈ ([[0, 0, 0, 0], [0, 0, 1, 1], [0, 0, 1, 1]] : List (List ℚ)),
      row.length = (["a", "b"] : List String).length + 2) := by
  have h : calculateConfusionMatrix ⟨[none], [[1]]⟩ ["a", "b"] =
      .ok [[0, 0, 0, 0], [0, 0, 1, 1], [0, 0, 1, 1]] := by
    simp [calculateConfusionMatrix, cmLoop, cmStep, getE, incr, zerosCM, colSums,
      List.range_succ]
  exact ⟨h, calculateConfusionMatrix_shape ⟨[none], [[1]]⟩ ["a", "b"] _ h⟩

/-- C6 counterexample: with one reference label the returned table is
`2 × 3`, whereas the claim asserts a square `(numLabels+2) × (numLabels+2)`
table, i.e. `3 × 3`. -/
theorem confusionMatrix_shape_counterexample :
    calculateConfusionMatrix ⟨[some [0]], [[0]]⟩ ["a"] = .ok [[1, 0, 1], [1, 0, 1]] ∧
    ([[1, 0, 1], [1, 0, 1]] : List (List ℚ)).length ≠ (["a"] : List String).length + 2 := by
  constructor
  · simp [calculateConfusionMatrix, cmLoop, cmStep, getE, incr, zerosCM, colSums,
      List.range_succ]
  · decide

theorem zipWith_add_getD (a : List ℚ) : ∀ (b : List ℚ), a.length = b.length →
    ∀ j : ℕ, (List.zipWith (· + ·) a b).getD j 0 = a.getD j 0 + b.getD j 0 := by
  induction a with
  | nil =>
    intro b hb j
    cases b with
    | nil => simp [List.getD]
    | cons y ys => simp at hb
  | cons x xs ih =>
    intro b hb j
    cases b with
    | nil => simp at hb
    | cons y ys =>
      cases j with
      | zero => simp [List.getD]
      | succ j => simpa [List.getD] using ih ys (by simpa using hb) j

theorem shapeOf_cons (r : List ℚ) (m : List (List ℚ)) :
    shapeOf (r :: m) = r.length :: shapeOf m := rfl

theorem matVal_cell (a : List (List ℚ)) : ∀ (b : List (List ℚ)),
    shapeOf a = shapeOf b → ∀ i j : ℕ,
      cell (List.zipWith (fun ra rb => List.zipWith (· + ·) ra rb) a b) i j =
        cell a i j + cell b i j := by
  induction a with
  | nil =>
    intro b hb i j
    cases b with
    | nil => simp [cell, List.getD]
    | cons rb b' => exact absurd hb (by simp [shapeOf])
  | cons ra a' ih =>
    intro b hb i j
    cases b with
    | nil => exact absurd hb (by simp [shapeOf])
    | cons rb b' =>
      rw [shapeOf_cons, shapeOf_cons] at hb
      have hrow : ra.length = rb.length := (List.cons.injEq _ _ _ _ ▸ hb).1
      have hrest : shapeOf a' = shapeOf b' := (List.cons.injEq _ _ _ _ ▸ hb).2
      cases i with
      | zero =>
        simpa [cell, List.getD] using zipWith_add_getD ra rb hrow j
      | succ i =>
        simpa [cell, List.getD] using ih b' hrest i j

theorem matVal_shape (a : List (List ℚ)) : ∀ (b : List (List ℚ)),
    shapeOf a = shapeOf b →
      shapeOf (List.zipWith (fun ra rb => List.zipWith (· + ·) ra rb) a b) = shapeOf a := by
  induction a with
  | nil => intro b hb; simp [shapeOf]
  | cons ra a' ih =>
    intro b hb
    cases b with
    | nil => exact absurd hb (by simp [shapeOf])
    | cons rb b' =>
      rw [shapeOf_cons, shapeOf_cons] at hb
      have hrow : ra.length = rb.length := (List.cons.injEq _ _ _ _ ▸ hb).1
      have hrest : shapeOf a' = shapeOf b' := (List.cons.injEq _ _ _ _ ▸ hb).2
      calc shapeOf (List.zipWith (fun ra rb => List.zipWith (· + ·) ra rb) (ra :: a') (rb :: b'))
          = (min ra.length rb.length) ::
            shapeOf (List.zipWith (fun ra rb => List.zipWith (· + ·) ra rb) a' b') := by
            simp [shapeOf, List.length_zipWith]
        _ = ra.length :: shapeOf a' := by rw [ih b' hrest, hrow, min_self]
        _ = shapeOf (ra :: a') := rfl

theorem getD_map_zero (row : List ℚ) : ∀ j : ℕ,
    ((row.map (fun _ => (0 : ℚ))).getD j 0) = 0 := by
  induction row with
  | nil => intro j; simp [List.getD]
  | cons x xs ih =>
    intro j
    cases j with
    | zero => simp [List.getD]
    | succ j => simp [List.getD]

theorem zerosLike_cell (m : List (List ℚ)) : ∀ i j : ℕ, cell (zerosLike m) i j = 0 := by
  induction m with
  | nil => intro i j; simp [cell, zerosLike, List.getD]
  | cons row m' ih =>
    intro i j
    cases i with
    | zero => simp [cell, zerosLike, List.getD]
    | succ i => simpa [cell, zerosLike, List.getD] using ih i j

theorem zerosLike_shape (m : List (List ℚ)) : shapeOf (zerosLike m) = shapeOf m := by
  simp [zerosLike, shapeOf]

theorem cmSumLoop_ok (S : List ℕ) (rest : List (ℚ × List (List ℚ))) :
    ∀ acc : List (List ℚ), shapeOf acc = S → (∀ x ∈ rest, shapeOf x.2 = S) →
      ∃ res, cmSumLoop acc rest = .ok res ∧ shapeOf res = S ∧
        ∀ i j : ℕ, cell res i j = cell acc i j + ((rest.map (fun x => cell x.2 i j)).sum) := by
  induction rest with
  | nil =>
    intro acc hacc _
    exact ⟨acc, rfl, hacc, by simp⟩
  | cons r rest' ih =>
    intro acc hacc hall
    have hr : shapeOf r.2 = S := hall r (List.mem_cons_self _ _)
    have hshapes : shapeOf acc = shapeOf r.2 := by rw [hacc, hr]
    have hstep : matAdd acc r.2 =
        .ok (List.zipWith (fun ra rb => List.zipWith (· + ·) ra rb) acc r.2) := by
      rw [matAdd, if_pos hshapes]
    obtain ⟨res, hres, hshape, hcell⟩ :=
      ih (List.zipWith (fun ra rb => List.zipWith (· + ·) ra rb) acc r.2)
        (by rw [matVal_shape acc r.2 hshapes, hacc])
        (fun x hx => hall x (List.mem_cons_of_mem _ hx))
    refine ⟨res, ?_, hshape, ?_⟩
    · rw [cmSumLoop, hstep]
      exact hres
    · intro i j
      rw [hcell i j, matVal_cell acc r.2 hshapes i j]
      simp [add_assoc]

theorem pyMax_step (x y : ℚ) (ys : List ℚ) : pyMax x (y :: ys) = pyMax (max x y) ys := rfl

theorem pyMin_step (x y : ℚ) (ys : List ℚ) : pyMin x (y :: ys) = pyMin (min x y) ys := rfl

theorem pyMax_mem (xs : List ℚ) : ∀ x : ℚ, pyMax x xs ∈ x :: xs := by
  induction xs with
  | nil => intro x; simp [pyMax]
  | cons y ys ih =>
    intro x
    rw [pyMax_step]
    rcases List.mem_cons.mp (ih (max x y)) with he | hm
    · rcases max_choice x y with h1 | h1
      · rw [he, h1]; exact List.mem_cons_self _ _
      · rw [he, h1]; exact List.mem_cons_of_mem _ (List.mem_cons_self _ _)
    · exact List.mem_cons_of_mem _ (List.mem_cons_of_mem _ hm)

theorem pyMax_ub (xs : List ℚ) : ∀ x : ℚ, ∀ a ∈ x :: xs, a ≤ pyMax x xs := by
  induction xs with
  | nil =>
    intro x a ha
    rw [List.mem_singleton.mp ha]
    simp [pyMax]
  | cons y ys ih =>
    intro x a ha
    rw [pyMax_step]
    rcases List.mem_cons.mp ha with rfl | ha'
    · exact le_trans (le_max_left a y) (ih (max a y) _ (List.mem_cons_self _ _))
    · rcases List.mem_cons.mp ha' with rfl | ha''
      · exact le_trans (le_max_right x a) (ih (max x a) _ (List.mem_cons_self _ _))
      · exact ih (max x y) a (List.mem_cons_of_mem _ ha'')

theorem pyMin_mem (xs : List ℚ) : ∀ x : ℚ, pyMin x xs ∈ x :: xs := by
  induction xs with
  | nil => intro x; simp [pyMin]
  | cons y ys ih =>
    intro x
    rw [pyMin_step]
    rcases List.mem_cons.mp (ih (min x y)) with he | hm
    · rcases min_choice x y with h1 | h1
      · rw [he, h1]; exact List.mem_cons_self _ _
      · rw [he, h1]; exact List.mem_cons_of_mem _ (List.mem_cons_self _ _)
    · exact List.mem_cons_of_mem _ (List.mem_cons_of_mem _ hm)

theorem pyMin_lb (xs : List ℚ) : ∀ x : ℚ, ∀ a ∈ x :: xs, pyMin x xs ≤ a := by
  induction xs with
  | nil =>
    intro x a ha
    rw [List.mem_singleton.mp ha]
    simp [pyMin]
  | cons y ys ih =>
    intro x a ha
    rw [pyMin_step]
    rcases List.mem_cons.mp ha with rfl | ha'
    · exact le_trans (ih (min a y) _ (List.mem_cons_self _ _)) (min_le_left a y)
    · rcases List.mem_cons.mp ha' with rfl | ha''
      · exact le_trans (ih (min x a) _ (List.mem_cons_self _ _)) (min_le_right x a)
      · exact ih (min x y) a (List.mem_cons_of_mem _ ha'')

/-- C3: for a non-empty list of per-fold (accuracy, confusion-matrix)
results whose matrices all share one shape, the cumulative result succeeds
and carries the maximum, arithmetic mean and minimum of the per-fold
accuracies, together with the element-wise sum of the per-fold matrices
(same shape, each cell the sum of the corresponding cells). -/
theorem evaluateCumulativeResults_stats (r0 : ℚ × List (List ℚ))
    (rest : List (ℚ × List (List ℚ)))
    (hshape : ∀ x ∈ r0 :: rest, shapeOf x.2 = shapeOf r0.2) :
    ∃ res, evaluateCumulativeResults (r0 :: rest) = .ok res ∧
      res.max_accuracy ∈ (r0 :: rest).map Prod.fst ∧
      (∀ a ∈ (r0 :: rest).map Prod.fst, a ≤ res.max_accuracy) ∧
      res.min_accuracy ∈ (r0 :: rest).map Prod.fst ∧
      (∀ a ∈ (r0 :: rest).map Prod.fst, res.min_accuracy ≤ a) ∧
      res.mean_accuracy = ((r0 :: rest).map Prod.fst).sum / (((r0 :: rest).length : ℚ)) ∧
      shapeOf res.total_cm = shapeOf r0.2 ∧
      ∀ i j : ℕ, cell res.total_cm i j =
        ((r0 :: rest).map (fun x => cell x.2 i j)).sum := by
  obtain ⟨cm, hcm, hcmshape, hcmcell⟩ :=
    cmSumLoop_ok (shapeOf r0.2) (r0 :: rest) (zerosLike r0.2)
      (zerosLike_shape r0.2) hshape
  refine ⟨⟨pyMax r0.1 (rest.map Prod.fst),
      ((r0 :: rest).map Prod.fst).sum / (((r0 :: rest).length : ℚ)),
      pyMin r0.1 (rest.map Prod.fst), cm⟩, ?_, ?_, ?_, ?_, ?_, rfl, hcmshape, ?_⟩
  · rw [evaluateCumulativeResults, hcm]
  · simpa using pyMax_mem (rest.map Prod.fst) r0.1
  · intro a ha
    exact pyMax_ub (rest.map Prod.fst) r0.1 a (by simpa using ha)
  · simpa using pyMin_mem (rest.map Prod.fst) r0.1
  · intro a ha
    exact pyMin_lb (rest.map Prod.fst) r0.1 a (by simpa using ha)
  · intro i j
    rw [hcmcell i j, zerosLike_cell r0.2 i j, zero_add]

/-- C3 witness: fold accuracies `[0.6, 0.8, 1.0]` with 1×1 matrices give
max 1, mean 0.8, min 0.6 and the summed matrix. -/
theorem evaluateCumulativeResults_stats_witness :
    (∀ x ∈ ([(3/5, [[1]]), (4/5, [[2]]), (1, [[3]])] : List (ℚ × List (List ℚ))),
      shapeOf x.2 = shapeOf [[(1 : ℚ)]]) ∧
    (∃ res, evaluateCumulativeResults [(3/5, [[1]]), (4/5, [[2]]), (1, [[3]])] = .ok res ∧
      res.max_accuracy ∈ ([(3/5, [[1]]), (4/5, [[2]]), (1, [[3]])] : List (ℚ × List (List ℚ))).map Prod.fst ∧
      (∀ a ∈ ([(3/5, [[1]]), (4/5, [[2]]), (1, [[3]])] : List (ℚ × List (List ℚ))).map Prod.fst,
        a ≤ res.max_accuracy) ∧
      res.min_accuracy ∈ ([(3/5, [[1]]), (4/5, [[2]]), (1, [[3]])] : List (ℚ × List (List ℚ))).map Prod.fst ∧
      (∀ a ∈ ([(3/5, [[1]]), (4/5, [[2]]), (1, [[3]])] : List (ℚ × List (List ℚ))).map Prod.fst,
        res.min_accuracy ≤ a) ∧
      res.mean_accuracy =
        (([(3/5, [[1]]), (4/5, [[2]]), (1, [[3]])] : List (ℚ × List (List ℚ))).map Prod.fst).sum
          / ((([(3/5, [[1]]), (4/5, [[2]]), (1, [[3]])] : List (ℚ × List (List ℚ))).length : ℚ)) ∧
      shapeOf res.total_cm = shapeOf [[(1 : ℚ)]] ∧
      ∀ i j : ℕ, cell res.total_cm i j =
        (([(3/5, [[1]]), (4/5, [[2]]), (1, [[3]])] : List (ℚ × List (List ℚ))).map
          (fun x => cell x.2 i j)).sum) := by
  refine ⟨?_, evaluateCumulativeResults_stats (3/5, [[1]]) [(4/5, [[2]]), (1, [[3]])] ?_⟩
  · intro x hx
    rcases List.mem_cons.mp hx with rfl | hx'
    · rfl
    · rcases List.mem_cons.mp hx' with rfl | hx''
      · rfl
      · rw [List.mem_singleton.mp hx'']
        rfl
  · intro x hx
    rcases List.mem_cons.mp hx with rfl | hx'
    · rfl
    · rcases List.mem_cons.mp hx' with rfl | hx''
      · rfl
      · rw [List.mem_singleton.mp hx'']
        rfl

/-- C8 counterexample: cumulative aggregation of the empty list indexes
`intermResults[0]` and fails with `IndexError` (an unclassified error),
not with the `ValueError` used for invalid arguments. -/
theorem evaluateCumulative_empty_counterexample :
    evaluateCumulativeResults [] = .error .indexError ∧
    (Except.error PyErr.indexError : Except PyErr CumulativeResult) ≠ .error .valueError := by
  exact ⟨rfl, by intro h; exact absurd (Except.error.inj h) (by decide)⟩

/-- C8 amended: cumulative aggregation applied to the empty sequence fails
with `IndexError` from the initial `intermResults[0]` access, not with the
`ValueError` the repository uses for invalid arguments. -/
theorem evaluateCumulative_empty_indexError :
    evaluateCumulativeResults [] = .error .indexError := rfl

/-- C7 amended witness: one sample with an empty actual label set. -/
theorem calculateAccuracy_emptyActual_witness :
    (([some [0]] : List (Option (List ℕ))).length = ([[]] : List (List ℕ)).length) ∧
    (([[]] : List (List ℕ)).length ≤ ([([], [])] : List Sample).length) ∧
    (∃ a ∈ ([[]] : List (List ℕ)), a = []) ∧
    calculateAccuracy ⟨[some [0]], [[]]⟩ [([], [])] = .error .zeroDivisionError :=
  ⟨by decide, by decide, by decide,
    calculateAccuracy_emptyActual_zeroDivision ⟨[some [0]], [[]]⟩ [([], [])]
      (by decide) (by decide) (by decide)⟩

theorem mem_insertDesc (x z : ℕ × ℤ) : ∀ l : List (ℕ × ℤ),
    z ∈ insertDesc x l ↔ z = x ∨ z ∈ l := by
  intro l
  induction l with
  | nil => simp [insertDesc]
  | cons y ys ih =>
    rw [insertDesc]
    by_cases h : x.2 ≤ y.2
    · rw [if_pos h]
      constructor
      · intro hz
        rcases List.mem_cons.mp hz with rfl | hz'
        · exact Or.inr (List.mem_cons_self _ _)
        · rcases ih.mp hz' with h1 | h2
          · exact Or.inl h1
          · exact Or.inr (List.mem_cons_of_mem _ h2)
      · intro hz
        rcases hz with rfl | hz'
        · exact List.mem_cons_of_mem _ (ih.mpr (Or.inl rfl))
        · rcases List.mem_cons.mp hz' with rfl | hz''
          · exact List.mem_cons_self _ _
          · exact List.mem_cons_of_mem _ (ih.mpr (Or.inr hz''))
    · rw [if_neg h]
      simp [List.mem_cons]

theorem insertDesc_headDominates (x : ℕ × ℤ) (l : List (ℕ × ℤ))
    (h : headDominates l) : headDominates (insertDesc x l) := by
  cases l with
  | nil =>
    intro z hz
    rw [List.mem_singleton.mp hz]
  | cons y ys =>
    rw [insertDesc]
    by_cases hxy : x.2 ≤ y.2
    · rw [if_pos hxy]
      intro z hz
      rcases List.mem_cons.mp hz with rfl | hz'
      · exact le_refl _
      · rcases (mem_insertDesc x z ys).mp hz' with rfl | hz''
        · exact hxy
        · exact h z (List.mem_cons_of_mem _ hz'')
    · rw [if_neg hxy]
      intro z hz
      rcases List.mem_cons.mp hz with rfl | hz'
      · exact le_refl _
      · rcases List.mem_cons.mp hz' with rfl | hz''
        · exact le_of_lt (lt_of_not_le hxy)
        · exact le_trans (h z (List.mem_cons_of_mem _ hz''))
            (le_of_lt (lt_of_not_le hxy))

theorem foldl_insertDesc_mem (z : ℕ × ℤ) : ∀ (l acc : List (ℕ × ℤ)),
    z ∈ l.foldl (fun acc x => insertDesc x acc) acc ↔ z ∈ acc ∨ z ∈ l := by
  intro l
  induction l with
  | nil => simp
  | cons a l' ih =>
    intro acc
    rw [List.foldl_cons, ih (insertDesc a acc), mem_insertDesc]
    constructor
    · rintro ((rfl | h1) | h2)
      · exact Or.inr (List.mem_cons_self _ _)
      · exact Or.inl h1
      · exact Or.inr (List.mem_cons_of_mem _ h2)
    · rintro (h1 | h2)
      · exact Or.inl (Or.inr h1)
      · rcases List.mem_cons.mp h2 with rfl | h3
        · exact Or.inl (Or.inl rfl)
        · exact Or.inr h3

theorem foldl_insertDesc_headDominates : ∀ (l acc : List (ℕ × ℤ)),
    headDominates acc → headDominates (l.foldl (fun acc x => insertDesc x acc) acc) := by
  intro l
  induction l with
  | nil => intro acc h; exact h
  | cons a l' ih =>
    intro acc h
    rw [List.foldl_cons]
    exact ih (insertDesc a acc) (insertDesc_headDominates a acc h)

theorem sortDesc_mem (z : ℕ × ℤ) (l : List (ℕ × ℤ)) : z ∈ sortDesc l ↔ z ∈ l := by
  rw [sortDesc, foldl_insertDesc_mem]
  simp

theorem sortDesc_headDominates (l : List (ℕ × ℤ)) : headDominates (sortDesc l) :=
  foldl_insertDesc_headDominates l [] trivial

/-- C5 amended: `winningLabels` returns at most `n` labels, and every
returned label is one whose frequency equals the maximum frequency in the
input mapping (the tie set for the max); labels of smaller — including
smaller positive — frequency are excluded, so on `{0:0, 1:4, 2:0, 3:1}`
with limit 3 it returns exactly `[1]`. -/
theorem winningLabels_max_tied_labels :
    (∀ (freq : List (ℕ × ℤ)) (n : ℕ),
      (winningLabels freq n).length ≤ n ∧
      ∀ l ∈ winningLabels freq n, ∃ v : ℤ, (l, v) ∈ freq ∧ ∀ x ∈ freq, x.2 ≤ v) ∧
    winningLabels [(0, 0), (1, 4), (2, 0), (3, 1)] 3 = [1] := by
  refine ⟨fun freq n => ?_, by decide⟩
  simp only [winningLabels]
  constructor
  · by_cases h : ((sortDesc freq).filter (fun c =>
        decide (c.2 = match sortDesc freq with | [] => 0 | c :: _ => c.2))).length ≤ n
    · rw [if_pos (by simpa using h)]
      simpa using h
    · rw [if_neg (by simpa using h)]
      simp [List.length_take]
  · intro l hl
    have hl' : l ∈ ((sortDesc freq).filter (fun c =>
        decide (c.2 = match sortDesc freq with | [] => 0 | c :: _ => c.2))).map Prod.fst := by
      by_cases h : (((sortDesc freq).filter (fun c =>
          decide (c.2 = match sortDesc freq with | [] => 0 | c :: _ => c.2))).map Prod.fst).length ≤ n
      · rw [if_pos h] at hl
        exact hl
      · rw [if_neg h] at hl
        exact List.take_subset _ _ hl
    obtain ⟨p, hpf, hp1⟩ := List.mem_map.mp hl'
    have hpmem : p ∈ sortDesc freq := (List.mem_filter.mp hpf).1
    have hpval : p.2 = (match sortDesc freq with | [] => 0 | c :: _ => c.2) := by
      simpa using (List.mem_filter.mp hpf).2
    refine ⟨p.2, ?_, ?_⟩
    · rw [← hp1]
      exact (sortDesc_mem p freq).mp hpmem
    · intro x hx
      have hxs : x ∈ sortDesc freq := (sortDesc_mem x freq).mpr hx
      cases hsd : sortDesc freq with
      | nil => rw [hsd] at hxs; exact absurd hxs (List.not_mem_nil x)
      | cons c0 t =>
        have hdom := sortDesc_headDominates freq
        rw [hsd] at hdom hxs
        rw [hpval, hsd]
        exact hdom x hxs

/-- C5 counterexample: on the frequency mapping `{0:0, 1:4, 2:0, 3:1}`
with limit 3 the code returns only `[1]` — the tie set for the maximum
count — not the positive-frequency labels `[1, 3]` the claim asserts. -/
theorem winningLabels_counterexample :
    winningLabels [(0, 0), (1, 4), (2, 0), (3, 1)] 3 = [1] ∧
    ([1] : List ℕ) ≠ [1, 3] := by
  decide

theorem foldl_append_log {π : Type} : ∀ (ts acc : List (π × PyVal)),
    ts.foldl (fun log x => log ++ [x]) acc = acc ++ ts := by
  intro ts
  induction ts with
  | nil => intro acc; simp
  | cons x ts' ih =>
    intro acc
    rw [List.foldl_cons, ih (acc ++ [x])]
    simp

theorem getE_ok {α : Type} (l : List α) (i : ℕ) (x : α) :
    getE l i = .ok x ↔ l.get? i = some x := by
  unfold getE
  cases h : l.get? i <;> simp

/-- C4 amended: `training` calls the model's train operation exactly once
per sample, strictly in input order, passing each sample's pattern and its
stored label value; for the per-fold training of `runExperiment` that
stored value is the single gold label `labels[i]` from the flat per-row
label array — not the sample's full gold label set. -/
theorem training_once_per_sample_in_order {π : Type} (patterns : List (π × List ℤ))
    (labels : List ℤ) (trainIdx : List ℕ) (ts : List (π × PyVal))
    (h : runExperimentTrainSet patterns labels trainIdx = .ok ts) :
    trainingCalls ts = ts ∧
    List.Forall₂ (fun i (x : π × PyVal) => ∃ p l, patterns.get? i = some p ∧
      labels.get? i = some l ∧ x = (p.1, PyVal.int l)) trainIdx ts := by
  refine ⟨by rw [trainingCalls, training, foldl_append_log ts []]; simp, ?_⟩
  induction trainIdx generalizing ts with
  | nil =>
    have hts : [] = ts := by simpa [runExperimentTrainSet] using h
    rw [← hts]
    exact List.Forall₂.nil
  | cons i rest ih =>
    rw [runExperimentTrainSet] at h
    split at h
    · exact absurd h (by simp)
    · rename_i p hp
      split at h
      · exact absurd h (by simp)
      · rename_i l hl
        split at h
        · exact absurd h (by simp)
        · rename_i tl htl
          have hts : (p.1, PyVal.int l) :: tl = ts := by simpa using h
          rw [← hts]
          exact List.Forall₂.cons
            ⟨p, l, (getE_ok patterns i p).mp hp, (getE_ok labels i l).mp hl, rfl⟩
            (ih tl htl)

/-- C4 amended witness: one train index; the single call passes the
pattern and `PyVal.int labels[0]`. -/
theorem training_once_per_sample_witness :
    runExperimentTrainSet [((5 : ℕ), [2])] [2] [0] = .ok [(5, PyVal.int 2)] ∧
    (trainingCalls [((5 : ℕ), PyVal.int 2)] = [(5, PyVal.int 2)] ∧
      List.Forall₂ (fun i (x : ℕ × PyVal) => ∃ p l,
        ([((5 : ℕ), [2])] : List (ℕ × List ℤ)).get? i = some p ∧
        ([2] : List ℤ).get? i = some l ∧ x = (p.1, PyVal.int l)) [0] [(5, PyVal.int 2)]) :=
  ⟨by decide, training_once_per_sample_in_order [((5 : ℕ), [2])] [2] [0]
    [(5, PyVal.int 2)] (by decide)⟩

/-- C4 counterexample: a sample whose full gold label set is `[0, 1]`;
`runExperiment` builds its train entry with the single label
`labels[0] = 0`, so the value passed to `trainModel` is `PyVal.int 0`, not
the full label set `PyVal.list [0, 1]`. -/
theorem runExperiment_trains_single_label_counterexample :
    runExperimentTrainSet [((7 : ℕ), [0, 1])] [0] [0] = .ok [(7, PyVal.int 0)] ∧
    PyVal.int 0 ≠ PyVal.list [0, 1] := by
  decide

theorem filter_map_succ_length (p : ℕ → Bool) : ∀ xs : List ℕ,
    ((xs.map Nat.succ).filter p).length = (xs.filter (fun i => p (i + 1))).length := by
  intro xs
  induction xs with
  | nil => simp
  | cons x xs' ih =>
    simp only [List.map_cons, List.filter_cons]
    cases hp : p (x + 1)
    · simpa [Nat.succ_eq_add_one, hp] using ih
    · simpa [Nat.succ_eq_add_one, hp] using ih

theorem range_filter_eq_zip_filter : ∀ (as bs : List String), as.length = bs.length →
    ((List.range as.length).filter
      (fun i => decide (as.getD i "" = bs.getD i ""))).length =
    ((as.zip bs).filter (fun ep => decide (ep.1 = ep.2))).length := by
  intro as
  induction as with
  | nil => intro bs h; simp
  | cons a as' ih =>
    intro bs h
    cases bs with
    | nil => simp at h
    | cons b bs' =>
      have h' : as'.length = bs'.length := by simpa using h
      have htail : (((List.range as'.length).map Nat.succ).filter
            (fun i => decide ((a :: as').getD i "" = (b :: bs').getD i ""))).length =
          ((as'.zip bs').filter (fun ep => decide (ep.1 = ep.2))).length := by
        rw [filter_map_succ_length]
        exact (show ((List.range as'.length).filter
            (fun i => decide ((a :: as').getD (i + 1) "" = (b :: bs').getD (i + 1) ""))).length =
          ((List.range as'.length).filter
            (fun i => decide (as'.getD i "" = bs'.getD i ""))).length from rfl).trans (ih bs' h')
      rw [List.length_cons, List.range_succ_eq_map, List.filter_cons, List.zip_cons_cons,
        List.filter_cons]
      cases hab : decide (a = b)
      · rw [show (decide ((a :: as').getD 0 "" = (b :: bs').getD 0 "")) = decide (a = b) from rfl,
          show (decide ((a, b).1 = (a, b).2)) = decide (a = b) from rfl, hab]
        simpa using htail
      · rw [show (decide ((a :: as').getD 0 "" = (b :: bs').getD 0 "")) = decide (a = b) from rfl,
          show (decide ((a, b).1 = (a, b).2)) = decide (a = b) from rfl, hab]
        simpa using htail

/-- C9 amended: when an expected-labels source is supplied, the code maps
each fold's predictions to top-1 label strings (or the sentinel "(none)"),
concatenates all folds, and computes one flat average of the per-position
equality indicator over all evaluated samples — not a per-fold average
averaged again across folds; it fails with `ValueError` when the
expected-label sequence length does not match the number of evaluated
samples. -/
theorem computeExpectedAccuracy_flat_average (lr : List String)
    (folds : List (List (Option (List ℕ)))) (expected : List String) :
    (expected.length = (predictionsOfFolds lr folds).length → 0 < expected.length →
      runExpectedAccuracy lr folds expected =
        .ok ((((expected.zip (predictionsOfFolds lr folds)).filter
          (fun ep => decide (ep.1 = ep.2))).length : ℚ) / (expected.length : ℚ))) ∧
    (expected.length ≠ (predictionsOfFolds lr folds).length →
      runExpectedAccuracy lr folds expected = .error .valueError) := by
  constructor
  · intro hlen hpos
    rw [runExpectedAccuracy, computeExpectedAccuracy,
      if_neg (by rw [hlen]; exact fun hc => hc rfl),
      if_neg (Nat.pos_iff_ne_zero.mp hpos),
      range_filter_eq_zip_filter expected (predictionsOfFolds lr folds) hlen]
  · intro hne
    rw [runExpectedAccuracy, computeExpectedAccuracy, if_pos hne]

/-- C9 amended witness: one fold, one sample, matching label string. -/
theorem computeExpectedAccuracy_flat_average_witness :
    ((["a"] : List String).length = (predictionsOfFolds ["a"] [[some [0]]]).length) ∧
    (0 < (["a"] : List String).length) ∧
    runExpectedAccuracy ["a"] [[some [0]]] ["a"] =
      .ok ((((["a"] : List String).zip (predictionsOfFolds ["a"] [[some [0]]])).filter
        (fun ep => decide (ep.1 = ep.2))).length / (((["a"] : List String).length : ℚ))) :=
  ⟨by decide, by decide,
    (computeExpectedAccuracy_flat_average ["a"] [[some [0]]] ["a"]).1 (by decide) (by decide)⟩

/-- C9 counterexample: folds of sizes 1 and 2; the code's flat average is
1/3, while averaging per fold and then across folds — as the claim states
— gives (1 + 0)/2 = 1/2. -/
theorem expectedAccuracy_flat_average_counterexample :
    runExpectedAccuracy ["a", "b"] [[some [0]], [some [1], some [1]]] ["a", "x", "y"] =
      .ok (1/3) ∧
    specFoldwiseExpectedAccuracy ["a", "b"] [[some [0]], [some [1], some [1]]]
      ["a", "x", "y"] = 1/2 ∧
    (1/3 : ℚ) ≠ 1/2 := by
  refine ⟨?_, ?_, by norm_num⟩
  · have h : ((List.range 3).filter
        (fun i => decide ((["a", "x", "y"] : List String)[i]?.getD "" =
          (["a", "b", "b"] : List String)[i]?.getD ""))) = [0] := by decide
    simp [runExpectedAccuracy, computeExpectedAccuracy, predictionsOfFolds, topPredictionString]
    rw [h]
    norm_num
  · simp [specFoldwiseExpectedAccuracy, foldAccuracies, topPredictionString]

/-- C10: `resetModel` empties both learned-state dictionaries (`positives`
and `categoryBitmaps`), whatever state the model is in, and changes no
other field; consequently `testModel` on any sample immediately after
`resetModel` returns the empty distance mapping. -/
theorem resetModel_clears_state_only {E C : Type} (m : ClassificationModelEndpoint E C) :
    (resetModel m).positives = [] ∧
    (resetModel m).categoryBitmaps = [] ∧
    (resetModel m).encoder = m.encoder ∧
    (resetModel m).client = m.client ∧
    (resetModel m).n = m.n ∧
    (resetModel m).w = m.w ∧
    (resetModel m).verbosity = m.verbosity ∧
    (resetModel m).plot = m.plot ∧
    (resetModel m).multiclass = m.multiclass ∧
    ∀ (D : Type) (compare : List ℕ → List ℕ → D) (sampleBitmap : List ℕ),
      testModel compare (resetModel m) sampleBitmap = [] := by
  refine ⟨rfl, rfl, rfl, rfl, rfl, rfl, rfl, rfl, rfl, ?_⟩
  intro D compare sampleBitmap
  rfl

/-- C5 amended witness: the general property instantiated at the frequency
mapping of the claim's example. -/
theorem winningLabels_max_tied_witness :
    (winningLabels [(0, 0), (1, 4), (2, 0), (3, 1)] 3).length ≤ 3 ∧
    ∀ l ∈ winningLabels [(0, 0), (1, 4), (2, 0), (3, 1)] 3, ∃ v : ℤ,
      (l, v) ∈ [((0 : ℕ), (0 : ℤ)), (1, 4), (2, 0), (3, 1)] ∧
      ∀ x ∈ [((0 : ℕ), (0 : ℤ)), (1, 4), (2, 0), (3, 1)], x.2 ≤ v :=
  winningLabels_max_tied_labels.1 [(0, 0), (1, 4), (2, 0), (3, 1)] 3
